import Mathlib

/-!
# Worker pool and autoscaler

A shallow embedding of `workerpool.go` and `autoscaler.go`.

* Go `int` is the 64-bit two's-complement integer: values are `Int`s and every
  arithmetic result goes through `wrapInt`.
* Go `float64` is only ever compared (`>` and `<`); it is embedded by its exact
  value: a rational, an infinity or NaN.
* The pool is a record of the fields of `Pool[T, R]` plus the goroutines it has
  started (workers, shrink-signal senders, the supervisor of `Run`) and history
  counters.  Goroutine interleaving is a step function over scheduler events.
-/

namespace Workerpool

/-! ## Go `int` -/

/-- Reduction of a mathematical integer to the Go `int` it is stored as. -/
def wrapInt (x : Int) : Int :=
  (x + 9223372036854775808) % 18446744073709551616 - 9223372036854775808

/-- The values a Go `int` can hold. -/
def IsInt (x : Int) : Prop :=
  -9223372036854775808 ≤ x ∧ x ≤ 9223372036854775807

instance (x : Int) : Decidable (IsInt x) :=
  inferInstanceAs (Decidable (_ ∧ _))

/-- Go `x + y` on `int`. -/
def addInt (x y : Int) : Int := wrapInt (x + y)

/-- Go `x - y` on `int`. -/
def subInt (x y : Int) : Int := wrapInt (x - y)

/-- Go `-x` on `int`. -/
def negInt (x : Int) : Int := wrapInt (-x)

/-! ## Go `float64`, as far as comparison goes -/

/-- A `float64` by exact value.  Both zeros are `fin 0`. -/
inductive Float64 where
  | nan
  | negInf
  | fin (q : ℚ)
  | posInf
  deriving DecidableEq

/-- Go `a < b` on `float64`: false as soon as one side is NaN. -/
def Float64.lt : Float64 → Float64 → Bool
  | .nan, _ => false
  | _, .nan => false
  | .negInf, .negInf => false
  | .negInf, _ => true
  | .fin _, .negInf => false
  | .fin a, .fin b => decide (a < b)
  | .fin _, .posInf => true
  | .posInf, _ => false

/-- Go `a > b` on `float64`. -/
def Float64.gt (a b : Float64) : Bool := Float64.lt b a

/-- Go `a == b` on `float64`: NaN differs from everything, itself included. -/
def Float64.eq : Float64 → Float64 → Bool
  | .nan, _ => false
  | _, .nan => false
  | .negInf, .negInf => true
  | .fin a, .fin b => decide (a = b)
  | .posInf, .posInf => true
  | _, _ => false

/-- Go `a <= b` on `float64`. -/
def Float64.le (a b : Float64) : Bool := Float64.lt a b || Float64.eq a b

/-! ## Data model of `workerpool.go` -/

/-- A non-nil Go `error`, by its message. -/
structure GoError where
  msg : String
  deriving DecidableEq

/-- `Result[R]`; `Err = none` is the nil error. -/
structure Result (R : Type) where
  Value : R
  Err : Option GoError
  deriving DecidableEq

/-- What one call of the task does: it returns `(val, err)`, or it panics with a
non-nil value whose `%v` rendering is `r`. -/
inductive TaskOutcome (R : Type) where
  | returned (val : R) (err : Option GoError)
  | panicked (r : String)

/-- `TaskFunc[T, R]`.  The first argument tells whether `ctx` is already done. -/
abbrev TaskFunc (T R : Type) := Bool → T → TaskOutcome R

/-- The calls a pool makes on its `Observer`, the duration left out. -/
inductive ObserverCall where
  | TaskStarted
  | TaskFinished (err : Option GoError)
  | WorkerCountChanged (count : Int)
  deriving DecidableEq

/-- Where a live worker goroutine stands. -/
inductive WorkerState (R : Type) where
  | selecting
  | sending (r : Result R)
  | exited
  deriving DecidableEq

/-- A goroutine running `worker(ctx)`; contexts are numbered, `0` is
`context.Background()`. -/
structure Worker (R : Type) where
  ctx : Nat
  st : WorkerState R
  deriving DecidableEq

/-- The goroutine `Resize` starts to scale down: it still has `remaining` sends
on `removeCh` to do. -/
structure Sender where
  ctx : Nat
  remaining : Nat
  deriving DecidableEq

/-- State of the `results` channel field. -/
inductive Chan where
  | nil
  | opened
  | closed
  deriving DecidableEq

/-- `Pool[T, R]` together with the goroutines and channels it owns.
`observer` tells whether the `Observer` is non-nil and `observed` logs the calls
made on it; `wg` is the counter of the `sync.WaitGroup`; `inputs` are the items
the input channel has yet to deliver; `sent` are the results received from
`results` so far; the unbuffered `removeCh` is the rendezvous between a worker
and one of `senders`; `supervisors` counts goroutines of `Run` still waiting;
`cancelled` lists the contexts that are done; `crashed` records a runtime panic
outside the barrier.  `spawned` and `removeRequested` are history counters: how
many `go p.worker` statements ran, and the sum of all `workersToRemove`. -/
structure Pool (T R : Type) where
  task : TaskFunc T R
  observer : Bool
  workerCount : Int
  initialConfig : Int
  wg : Nat
  inputs : List T
  inputsClose : Bool
  results : Chan
  sent : List (Result R)
  workers : List (Worker R)
  senders : List Sender
  supervisors : Nat
  cancelled : List Nat
  observed : List ObserverCall
  spawned : Nat
  removeRequested : Nat
  crashed : Bool

variable {T R : Type}

/-- `New`: `inputs` are the items the input channel will deliver, in order, and
`inputsClose` tells whether the producer closes it after the last one. -/
def New (initialWorkers : Int) (inputs : List T) (inputsClose : Bool)
    (task : TaskFunc T R) (obs : Bool) : Pool T R :=
  let initialWorkers := if initialWorkers < 0 then 0 else initialWorkers
  { task := task
    observer := obs
    workerCount := 0
    initialConfig := initialWorkers
    wg := 0
    inputs := inputs
    inputsClose := inputsClose
    results := Chan.nil
    sent := []
    workers := []
    senders := []
    supervisors := 0
    cancelled := []
    observed := []
    spawned := 0
    removeRequested := 0
    crashed := false }

/-- `Pool.Resize`, run under the pool mutex. -/
def Pool.Resize (p : Pool T R) (ctx : Nat) (targetWorkers : Int) : Pool T R :=
  let targetWorkers := if targetWorkers < 0 then 0 else targetWorkers
  let current := p.workerCount
  let diff := subInt targetWorkers current
  if diff = 0 then p
  else
    let p1 : Pool T R :=
      if diff > 0 then
        { p with
          wg := p.wg + diff.toNat
          workers := p.workers ++ List.replicate diff.toNat ⟨ctx, WorkerState.selecting⟩
          spawned := p.spawned + diff.toNat }
      else
        let workersToRemove := negInt diff
        { p with
          senders := p.senders ++ [⟨ctx, workersToRemove.toNat⟩]
          removeRequested := p.removeRequested + workersToRemove.toNat }
    let p2 : Pool T R := { p1 with workerCount := targetWorkers }
    if p2.observer then
      { p2 with observed := p2.observed ++ [ObserverCall.WorkerCountChanged targetWorkers] }
    else p2

/-- `Pool.CurrentWorkers`. -/
def Pool.CurrentWorkers (p : Pool T R) : Int := p.workerCount

/-- `Pool.Run`: make the channel, apply the initial size, start the supervisor
goroutine (`wg.Wait(); close(p.results)`). -/
def Pool.Run (p : Pool T R) (ctx : Nat) : Pool T R :=
  let p1 : Pool T R := { p with results := Chan.opened }
  let p2 := p1.Resize ctx p1.initialConfig
  { p2 with supervisors := p2.supervisors + 1 }

/-! ## Worker goroutines -/

/-- Whether `ctx.Done()` is closed. -/
def Pool.ctxDone (p : Pool T R) (ctx : Nat) : Bool := decide (ctx ∈ p.cancelled)

/-- The panic barrier of `safeExecute`: `val` and `err` start as zero values
(`default` is the zero value of `R`); a normal return assigns both, a recovered
panic assigns `err = fmt.Errorf("panic: %v", r)` only. -/
def panicBarrier [Inhabited R] (o : TaskOutcome R) : Result R :=
  match o with
  | TaskOutcome.returned val err => ⟨val, err⟩
  | TaskOutcome.panicked r => ⟨default, some ⟨"panic: " ++ r⟩⟩

/-- `Pool.safeExecute` by worker `i`, up to its final `select`, where the worker
then waits holding the `Result`. -/
def Pool.safeExecute [Inhabited R] (p : Pool T R) (i ctx : Nat) (input : T) : Pool T R :=
  let p1 : Pool T R :=
    if p.observer then { p with observed := p.observed ++ [ObserverCall.TaskStarted] } else p
  let res := panicBarrier (p1.task (p1.ctxDone ctx) input)
  let p2 : Pool T R :=
    if p1.observer then
      { p1 with observed := p1.observed ++ [ObserverCall.TaskFinished res.Err] }
    else p1
  { p2 with workers := p2.workers.set i ⟨ctx, WorkerState.sending res⟩ }

/-- The cases of the final `select` of `safeExecute`. -/
inductive SendCase where
  | send
  | done
  deriving DecidableEq

/-- The final `select` of `safeExecute` taking one of its cases, when that case
is ready.  A send on the closed channel is a runtime panic outside the barrier;
a send on the nil channel never becomes ready. -/
def Pool.safeExecuteSelect (p : Pool T R) (i ctx : Nat) (r : Result R) : SendCase → Pool T R
  | SendCase.send =>
    match p.results with
    | Chan.opened =>
      { p with sent := p.sent ++ [r], workers := p.workers.set i ⟨ctx, WorkerState.selecting⟩ }
    | Chan.closed => { p with crashed := true }
    | Chan.nil => p
  | SendCase.done =>
    if p.ctxDone ctx then
      { p with workers := p.workers.set i ⟨ctx, WorkerState.selecting⟩ }
    else p

/-- Worker `i` returns from `worker`: the deferred `p.wg.Done()` runs. -/
def Pool.workerReturn (p : Pool T R) (i ctx : Nat) : Pool T R :=
  { p with workers := p.workers.set i ⟨ctx, WorkerState.exited⟩, wg := p.wg - 1 }

/-- The cases of the `select` in the loop of `worker`; `remove j` receives the
signal offered by sender `j`. -/
inductive LoopCase where
  | done
  | remove (j : Nat)
  | input
  deriving DecidableEq

/-- One turn of the loop of `Pool.worker` for worker `i`, taking one case of the
`select` when that case is ready. -/
def Pool.worker [Inhabited R] (p : Pool T R) (i ctx : Nat) : LoopCase → Pool T R
  | LoopCase.done => if p.ctxDone ctx then p.workerReturn i ctx else p
  | LoopCase.remove j =>
    match p.senders[j]? with
    | some ⟨sctx, k + 1⟩ =>
      let p1 : Pool T R := { p with senders := p.senders.set j ⟨sctx, k⟩ }
      p1.workerReturn i ctx
    | _ => p
  | LoopCase.input =>
    match p.inputs with
    | x :: rest =>
      let p1 : Pool T R := { p with inputs := rest }
      p1.safeExecute i ctx x
    | [] => if p.inputsClose then p.workerReturn i ctx else p

/-- What the scheduler and the callers can make happen next. -/
inductive Event where
  | resize (ctx : Nat) (target : Int)
  | cancel (ctx : Nat)
  | loop (i : Nat) (c : LoopCase)
  | exec (i : Nat) (c : SendCase)
  | senderDone (j : Nat)
  | supervisorClose
  deriving DecidableEq

/-- One atomic step of the pool.  An event that is not ready leaves the state
as it is; after a runtime panic nothing runs any more.
`supervisorClose` is the goroutine of `Run`: `wg.Wait()` returning at counter
zero, then `close(p.results)`. -/
def Pool.step [Inhabited R] (p : Pool T R) (e : Event) : Pool T R :=
  if p.crashed then p
  else
    match e with
    | Event.resize ctx target => p.Resize ctx target
    | Event.cancel ctx => if ctx = 0 then p else { p with cancelled := ctx :: p.cancelled }
    | Event.loop i c =>
      match p.workers[i]? with
      | some ⟨ctx, WorkerState.selecting⟩ => p.worker i ctx c
      | _ => p
    | Event.exec i c =>
      match p.workers[i]? with
      | some ⟨ctx, WorkerState.sending r⟩ => p.safeExecuteSelect i ctx r c
      | _ => p
    | Event.senderDone j =>
      match p.senders[j]? with
      | some ⟨sctx, _⟩ =>
        if p.ctxDone sctx then { p with senders := p.senders.set j ⟨sctx, 0⟩ } else p
      | none => p
    | Event.supervisorClose =>
      if 0 < p.supervisors ∧ p.wg = 0 then
        match p.results with
        | Chan.opened => { p with results := Chan.closed, supervisors := p.supervisors - 1 }
        | _ => { p with crashed := true }
      else p

/-- The pool after a schedule of events. -/
def Pool.run [Inhabited R] (p : Pool T R) (evs : List Event) : Pool T R :=
  evs.foldl Pool.step p

/-- Number of worker goroutines that have not returned. -/
def liveWorkers (ws : List (Worker R)) : Nat :=
  (ws.filter (fun w => match w.st with
    | WorkerState.exited => false
    | _ => true)).length

/-! ## `autoscaler.go` -/

/-- `AutoScaler`: bounds and strategy; the pool and the fetched metric are
passed to `evaluate`. -/
structure AutoScaler where
  min : Int
  max : Int
  strategy : Int → Float64 → Int

/-- `NewAutoScaler`, with its default strategy. -/
def NewAutoScaler (min max : Int) : AutoScaler :=
  { min := min, max := max, strategy := fun curr _ => curr }

/-- `AutoScaler.SetStrategy`. -/
def AutoScaler.SetStrategy (a : AutoScaler) (fn : Int → Float64 → Int) : AutoScaler :=
  { a with strategy := fn }

/-- `AutoScaler.WithThresholdStrategy`. -/
def AutoScaler.WithThresholdStrategy (a : AutoScaler) (low high : Float64) (step : Int) :
    AutoScaler :=
  a.SetStrategy (fun current metric =>
    if Float64.gt metric high then addInt current step
    else if Float64.lt metric low then subInt current step
    else current)

/-- `AutoScaler.WithInverseThresholdStrategy`. -/
def AutoScaler.WithInverseThresholdStrategy (a : AutoScaler) (low high : Float64) (step : Int) :
    AutoScaler :=
  a.SetStrategy (fun current metric =>
    if Float64.gt metric high then subInt current step
    else if Float64.lt metric low then addInt current step
    else current)

/-- `AutoScaler.evaluate` on pool `p`, `val` being what `metricFetcher()`
returned; the resize uses `context.Background()`. -/
def AutoScaler.evaluate (a : AutoScaler) (val : Float64) (p : Pool T R) : Pool T R :=
  let current := p.CurrentWorkers
  let desired := a.strategy current val
  let desired := if desired < a.min then a.min else desired
  let desired := if desired > a.max then a.max else desired
  if desired ≠ current then p.Resize 0 desired else p

/-! ## Tasks of the test files and derived notions -/

/-- The task `doubleTask` of `workerpool_test.go`. -/
def doubleTask : TaskFunc Int Int := fun _ n => TaskOutcome.returned (wrapInt (n * 2)) none

/-- The task `flakyTask` of `TestPanicIsolation`. -/
def flakyTask : TaskFunc Int Int := fun _ n =>
  if n = 666 then TaskOutcome.panicked "something went wrong!" else TaskOutcome.returned n none

/-- A sequence of `Resize` calls, each with its context and target. -/
def Pool.resizes (p : Pool T R) (calls : List (Nat × Int)) : Pool T R :=
  calls.foldl (fun q c => q.Resize c.1 c.2) p

/-- The observer calls made between state `p` and a later state `q`. -/
def emitted (p q : Pool T R) : List ObserverCall :=
  q.observed.drop p.observed.length

/-! ## Predicates and measures used in the statements -/

/-- The state `Resize` keeps: a worker count that is a non-negative Go `int` and
equals workers spawned minus shrink signals requested. -/
def Accounted (q : Pool T R) : Prop :=
  0 ≤ q.workerCount ∧ IsInt q.workerCount ∧
    q.workerCount = (q.spawned : Int) - (q.removeRequested : Int)

/-- What worker `i` does with the input it takes when that input's `Result` is
`r`: it comes out of the task holding `r` with nothing sent yet, cannot drop it,
and its send puts exactly `r` on `results` and brings it back to the `select`
of its loop, still counted in the wait group. -/
def DeliversOnce [Inhabited R] (p : Pool T R) (i ctx : Nat) (r : Result R) : Prop :=
  (p.step (Event.loop i LoopCase.input)).workers[i]? = some ⟨ctx, WorkerState.sending r⟩ ∧
    (p.step (Event.loop i LoopCase.input)).sent = p.sent ∧
    (p.step (Event.loop i LoopCase.input)).step (Event.exec i SendCase.done)
      = p.step (Event.loop i LoopCase.input) ∧
    (p.run [Event.loop i LoopCase.input, Event.exec i SendCase.send]).sent = p.sent ++ [r] ∧
    (p.run [Event.loop i LoopCase.input, Event.exec i SendCase.send]).workers[i]?
      = some ⟨ctx, WorkerState.selecting⟩ ∧
    (p.run [Event.loop i LoopCase.input, Event.exec i SendCase.send]).wg = p.wg ∧
    (p.run [Event.loop i LoopCase.input, Event.exec i SendCase.send]).crashed = false ∧
    (p.run [Event.loop i LoopCase.input, Event.exec i SendCase.send]).inputs = p.inputs.tail

/-- The results that workers hold in the final `select` of `safeExecute`. -/
def heldResults (ws : List (Worker R)) : List (Result R) :=
  ws.filterMap (fun w => match w.st with
    | WorkerState.sending r => some r
    | _ => none)

/-- Events of the pool's own goroutines: not a `Resize` call, not a cancellation. -/
def Event.internal : Event → Bool
  | Event.resize _ _ => false
  | Event.cancel _ => false
  | _ => true

/-- What holds of a pool that was started with at least one worker on the input
`items`, while nobody cancels or resizes. -/
structure Draining [Inhabited R] (task : TaskFunc T R) (items : List T) (q : Pool T R) :
    Prop where
  crashed : q.crashed = false
  task_eq : q.task = task
  closes : q.inputsClose = true
  cancelled : q.cancelled = []
  senders : q.senders = []
  wg : q.wg = liveWorkers q.workers
  nonempty : q.workers ≠ []
  conserve : (↑q.sent : Multiset (Result R)) + ↑(heldResults q.workers)
      + ↑(q.inputs.map (fun x => panicBarrier (task false x)))
    = ↑(items.map (fun x => panicBarrier (task false x)))
  exited : ∀ w ∈ q.workers, w.st = WorkerState.exited → q.inputs = []
  chan : (q.results = Chan.opened ∧ q.supervisors = 1) ∨
    (q.results = Chan.closed ∧ q.supervisors = 0 ∧ q.wg = 0)

/-- A bound on the steps the pool's goroutines still have to take. -/
def remainingWork (q : Pool T R) : Nat :=
  2 * q.inputs.length + (heldResults q.workers).length + liveWorkers q.workers
    + (if q.results = Chan.opened then 1 else 0)

/-! ## Arithmetic of Go `int` -/

theorem wrapInt_of_isInt {x : Int} (h : IsInt x) : wrapInt x = x := by
  unfold IsInt at h
  unfold wrapInt
  omega

theorem subInt_eq_zero_iff {a b : Int} (ha : IsInt a) (hb : IsInt b) :
    subInt a b = 0 ↔ a = b := by
  unfold IsInt at ha hb
  unfold subInt wrapInt
  omega

theorem subInt_of_nonneg {a b : Int} (ha0 : 0 ≤ a) (ha : IsInt a) (hb0 : 0 ≤ b) (hb : IsInt b) :
    subInt a b = a - b := by
  unfold IsInt at ha hb
  unfold subInt wrapInt
  omega

theorem negInt_of_small {d : Int} (h1 : -9223372036854775807 ≤ d) (h2 : d ≤ 9223372036854775807) :
    negInt d = -d := by
  unfold negInt wrapInt
  omega

theorem isInt_clampZero {n : Int} (hn : IsInt n) : IsInt (if n < 0 then 0 else n) := by
  unfold IsInt at *
  split <;> omega

/-! ## `Resize` and `CurrentWorkers` -/

theorem Resize_workerCount (p : Pool T R) (ctx : Nat) (n : Int)
    (hp : IsInt p.workerCount) (hn : IsInt n) :
    (p.Resize ctx n).workerCount = if n < 0 then 0 else n := by
  have hz := subInt_eq_zero_iff (isInt_clampZero hn) hp
  unfold Pool.Resize
  by_cases hd : subInt (if n < 0 then 0 else n) p.workerCount = 0
  · simp only [hd, if_true]
    exact (hz.mp hd).symm
  · simp only [hd, if_false]
    by_cases hpos : subInt (if n < 0 then 0 else n) p.workerCount > 0 <;>
      by_cases ho : p.observer = true <;> simp [hpos, ho]

/-- C1: whatever the pool state and the target `n`, right after `Resize(ctx, n)`
the value of `CurrentWorkers()` is `max(0, n)`: `n` itself when `n ≥ 0`, and `0`
when `n < 0`. -/
theorem Resize_CurrentWorkers (p : Pool T R) (ctx : Nat) (n : Int)
    (hp : IsInt p.workerCount) (hn : IsInt n) :
    (p.Resize ctx n).CurrentWorkers = max 0 n ∧
      (0 ≤ n → (p.Resize ctx n).CurrentWorkers = n) ∧
      (n < 0 → (p.Resize ctx n).CurrentWorkers = 0) := by
  have h := Resize_workerCount p ctx n hp hn
  unfold Pool.CurrentWorkers
  rw [h]
  refine ⟨?_, ?_, ?_⟩
  · split
    · rw [max_eq_left (by omega)]
    · rw [max_eq_right (by omega)]
  · intro h0
    rw [if_neg (by omega)]
  · intro h0
    rw [if_pos h0]

theorem Resize_CurrentWorkers_witness :
    (((New 1 ([] : List Int) false doubleTask false).Run 1).Resize 1 10).CurrentWorkers
        = max 0 10 ∧
      ((0 : Int) ≤ 10 →
        (((New 1 ([] : List Int) false doubleTask false).Run 1).Resize 1 10).CurrentWorkers = 10) ∧
      ((10 : Int) < 0 →
        (((New 1 ([] : List Int) false doubleTask false).Run 1).Resize 1 10).CurrentWorkers = 0) :=
  Resize_CurrentWorkers ((New 1 ([] : List Int) false doubleTask false).Run 1) 1 10
    (by decide) (by decide)

theorem clampZero_eq_max (n : Int) : (if n < 0 then 0 else n) = max 0 n := by
  split
  · rw [max_eq_left (by omega)]
  · rw [max_eq_right (by omega)]

theorem Resize_observed (p : Pool T R) (ctx : Nat) (n : Int)
    (hp : IsInt p.workerCount) (hn : IsInt n) :
    (p.Resize ctx n).observed =
      if max 0 n = p.workerCount then p.observed
      else if p.observer = true then
        p.observed ++ [ObserverCall.WorkerCountChanged (max 0 n)]
      else p.observed := by
  have hz := subInt_eq_zero_iff (isInt_clampZero hn) hp
  rw [← clampZero_eq_max]
  unfold Pool.Resize
  by_cases hd : subInt (if n < 0 then 0 else n) p.workerCount = 0
  · simp only [hd, if_true]
    rw [if_pos (hz.mp hd)]
  · simp only [hd, if_false]
    rw [if_neg (fun h => hd (hz.mpr h))]
    by_cases hpos : subInt (if n < 0 then 0 else n) p.workerCount > 0 <;>
      by_cases ho : p.observer = true <;> simp [hpos, ho]

theorem Resize_of_eq (p : Pool T R) (ctx : Nat) (n : Int)
    (h : max 0 n = p.workerCount) : p.Resize ctx n = p := by
  rw [← clampZero_eq_max] at h
  unfold Pool.Resize
  have hd : subInt (if n < 0 then 0 else n) p.workerCount = 0 := by
    rw [h]
    unfold subInt wrapInt
    omega
  simp only [hd, if_true]

/-- C9 (counterexample): on a pool with an observer and three workers,
`Resize(ctx, 3)` makes no observer call at all. -/
theorem Resize_emits_once_counterexample :
    ((New 3 ([] : List Int) false doubleTask true).Run 1).observer = true ∧
      emitted ((New 3 ([] : List Int) false doubleTask true).Run 1)
        (((New 3 ([] : List Int) false doubleTask true).Run 1).Resize 1 3) = [] ∧
      emitted ((New 3 ([] : List Int) false doubleTask true).Run 1)
        (((New 3 ([] : List Int) false doubleTask true).Run 1).Resize 1 3)
        ≠ [ObserverCall.WorkerCountChanged (max 0 3)] := by
  decide

/-- C9 (amended): on a pool with an observer, `Resize(ctx, target)` makes exactly
one observer call, `WorkerCountChanged(max(0, target))`, when `max(0, target)`
differs from the worker count before the call; when they are equal it makes
none and leaves the pool as it was. -/
theorem Resize_emits_on_change (p : Pool T R) (ctx : Nat) (target : Int)
    (hobs : p.observer = true) (hp : IsInt p.workerCount) (ht : IsInt target) :
    (max 0 target ≠ p.workerCount →
        emitted p (p.Resize ctx target) = [ObserverCall.WorkerCountChanged (max 0 target)]) ∧
      (max 0 target = p.workerCount →
        emitted p (p.Resize ctx target) = [] ∧ p.Resize ctx target = p) := by
  have h := Resize_observed p ctx target hp ht
  unfold emitted
  constructor
  · intro hne
    rw [h, if_neg hne, if_pos hobs]
    simp
  · intro he
    rw [Resize_of_eq p ctx target he]
    simp

theorem Resize_emits_on_change_witness :
    (max 0 5 ≠ ((New 3 ([] : List Int) false doubleTask true).Run 1).workerCount →
        emitted ((New 3 ([] : List Int) false doubleTask true).Run 1)
          (((New 3 ([] : List Int) false doubleTask true).Run 1).Resize 1 5)
          = [ObserverCall.WorkerCountChanged (max 0 5)]) ∧
      (max 0 5 = ((New 3 ([] : List Int) false doubleTask true).Run 1).workerCount →
        emitted ((New 3 ([] : List Int) false doubleTask true).Run 1)
          (((New 3 ([] : List Int) false doubleTask true).Run 1).Resize 1 5) = [] ∧
        ((New 3 ([] : List Int) false doubleTask true).Run 1).Resize 1 5
          = (New 3 ([] : List Int) false doubleTask true).Run 1) :=
  Resize_emits_on_change ((New 3 ([] : List Int) false doubleTask true).Run 1) 1 5
    (by decide) (by decide) (by decide)

/-! ## Accounting of spawned workers and shrink signals -/

theorem Resize_diff (q : Pool T R) (target : Int)
    (h0 : 0 ≤ q.workerCount) (hq : IsInt q.workerCount) (ht : IsInt target) :
    subInt (if target < 0 then 0 else target) q.workerCount = max 0 target - q.workerCount := by
  rw [← clampZero_eq_max]
  apply subInt_of_nonneg _ (isInt_clampZero ht) h0 hq
  split <;> omega

theorem Resize_up (q : Pool T R) (ctx : Nat) (target : Int)
    (h0 : 0 ≤ q.workerCount) (hq : IsInt q.workerCount) (ht : IsInt target)
    (hd : 0 < max 0 target - q.workerCount) :
    (q.Resize ctx target).spawned = q.spawned + (max 0 target - q.workerCount).toNat ∧
      (q.Resize ctx target).removeRequested = q.removeRequested ∧
      (q.Resize ctx target).wg = q.wg + (max 0 target - q.workerCount).toNat ∧
      (q.Resize ctx target).workers =
        q.workers ++ List.replicate (max 0 target - q.workerCount).toNat
          ⟨ctx, WorkerState.selecting⟩ ∧
      (q.Resize ctx target).senders = q.senders := by
  have hsub := Resize_diff q target h0 hq ht
  have hne : ¬ (max 0 target - q.workerCount = 0) := by omega
  unfold Pool.Resize
  simp only [hsub, hne, if_false, gt_iff_lt, hd, if_true]
  by_cases ho : q.observer = true <;> simp [ho]

theorem Resize_down (q : Pool T R) (ctx : Nat) (target : Int)
    (h0 : 0 ≤ q.workerCount) (hq : IsInt q.workerCount) (ht : IsInt target)
    (hd : max 0 target - q.workerCount < 0) :
    (q.Resize ctx target).spawned = q.spawned ∧
      (q.Resize ctx target).removeRequested
        = q.removeRequested + (q.workerCount - max 0 target).toNat ∧
      (q.Resize ctx target).wg = q.wg ∧
      (q.Resize ctx target).workers = q.workers ∧
      (q.Resize ctx target).senders
        = q.senders ++ [⟨ctx, (q.workerCount - max 0 target).toNat⟩] := by
  have hsub := Resize_diff q target h0 hq ht
  have hne : ¬ (max 0 target - q.workerCount = 0) := by omega
  have hnp : ¬ (0 < max 0 target - q.workerCount) := by omega
  have hneg : negInt (max 0 target - q.workerCount) = q.workerCount - max 0 target := by
    have hm : 0 ≤ max 0 target := le_max_left 0 target
    unfold IsInt at hq
    rw [negInt_of_small (by omega) (by omega)]
    omega
  unfold Pool.Resize
  simp only [hsub, hne, if_false, gt_iff_lt, hnp, hneg]
  by_cases ho : q.observer = true <;> simp [ho]

theorem Accounted_Resize (q : Pool T R) (ctx : Nat) (target : Int)
    (hq : Accounted q) (ht : IsInt target) : Accounted (q.Resize ctx target) := by
  obtain ⟨h0, hi, hacc⟩ := hq
  have hwc := Resize_workerCount q ctx target hi ht
  rw [clampZero_eq_max] at hwc
  have hm : 0 ≤ max 0 target := le_max_left 0 target
  have hmi : IsInt (max 0 target) := by
    rw [← clampZero_eq_max]
    exact isInt_clampZero ht
  refine ⟨by rw [hwc]; exact hm, by rw [hwc]; exact hmi, ?_⟩
  rcases lt_trichotomy (max 0 target - q.workerCount) 0 with hd | hd | hd
  · obtain ⟨hs, hr, _⟩ := Resize_down q ctx target h0 hi ht hd
    rw [hwc, hs, hr]
    push_cast
    rw [Int.toNat_of_nonneg (by omega)]
    omega
  · have he : max 0 target = q.workerCount := by omega
    rw [Resize_of_eq q ctx target he]
    exact hacc
  · obtain ⟨hs, hr, _⟩ := Resize_up q ctx target h0 hi ht hd
    rw [hwc, hs, hr]
    push_cast
    rw [Int.toNat_of_nonneg (by omega)]
    omega

theorem Accounted_New (initialWorkers : Int) (inputs : List T) (inputsClose : Bool)
    (task : TaskFunc T R) (obs : Bool) :
    Accounted (New initialWorkers inputs inputsClose task obs) := by
  unfold Accounted New IsInt
  simp

theorem Accounted_resizes (q : Pool T R) (calls : List (Nat × Int))
    (hq : Accounted q) (hcalls : ∀ c ∈ calls, IsInt c.2) : Accounted (q.resizes calls) := by
  induction calls generalizing q with
  | nil => exact hq
  | cons c cs ih =>
    have hc : IsInt c.2 := hcalls c (List.mem_cons_self c cs)
    have hcs : ∀ d ∈ cs, IsInt d.2 := fun d hd => hcalls d (List.mem_cons_of_mem c hd)
    exact ih (q.Resize c.1 c.2) (Accounted_Resize q c.1 c.2 hq hc) hcs

/-- C10: after any sequence of `Resize` calls on a pool made by `New`,
`workerCount` equals workers spawned minus shrink signals requested, and one more
`Resize` with `diff = max(0, target) - workerCount` spawns exactly `diff` workers
when `diff > 0`, requests exactly `-diff` shrink signals on `removeCh` when
`diff < 0`, and does neither when `diff = 0`. -/
theorem Resize_accounting (initialWorkers : Int) (inputs : List T) (inputsClose : Bool)
    (task : TaskFunc T R) (obs : Bool) (calls : List (Nat × Int))
    (hcalls : ∀ c ∈ calls, IsInt c.2) (ctx : Nat) (target : Int) (ht : IsInt target) :
    ((New initialWorkers inputs inputsClose task obs).resizes calls).workerCount
        = (((New initialWorkers inputs inputsClose task obs).resizes calls).spawned : Int)
          - (((New initialWorkers inputs inputsClose task obs).resizes calls).removeRequested : Int) ∧
      (∀ q : Pool T R, q = (New initialWorkers inputs inputsClose task obs).resizes calls →
        ∀ diff : Int, diff = max 0 target - q.workerCount →
          (0 < diff →
            ((q.Resize ctx target).spawned : Int) = q.spawned + diff ∧
            (q.Resize ctx target).removeRequested = q.removeRequested ∧
            (q.Resize ctx target).workers
              = q.workers ++ List.replicate diff.toNat ⟨ctx, WorkerState.selecting⟩ ∧
            (q.Resize ctx target).senders = q.senders) ∧
          (diff < 0 →
            ((q.Resize ctx target).removeRequested : Int) = q.removeRequested + -diff ∧
            (q.Resize ctx target).spawned = q.spawned ∧
            (q.Resize ctx target).workers = q.workers ∧
            (q.Resize ctx target).senders = q.senders ++ [⟨ctx, (-diff).toNat⟩]) ∧
          (diff = 0 →
            (q.Resize ctx target).spawned = q.spawned ∧
            (q.Resize ctx target).removeRequested = q.removeRequested ∧
            (q.Resize ctx target).workers = q.workers ∧
            (q.Resize ctx target).senders = q.senders)) := by
  have hacc := Accounted_resizes _ calls
    (Accounted_New initialWorkers inputs inputsClose task obs) hcalls
  refine ⟨hacc.2.2, ?_⟩
  intro q hqe diff hdiff
  subst hqe
  obtain ⟨h0, hi, _⟩ := hacc
  subst hdiff
  refine ⟨?_, ?_, ?_⟩
  · intro hd
    obtain ⟨hs, hr, _, hw, hsd⟩ := Resize_up _ ctx target h0 hi ht hd
    refine ⟨?_, hr, hw, hsd⟩
    rw [hs]
    push_cast
    rw [Int.toNat_of_nonneg (by omega)]
  · intro hd
    obtain ⟨hs, hr, _, hw, hsd⟩ := Resize_down _ ctx target h0 hi ht hd
    refine ⟨?_, hs, hw, ?_⟩
    · rw [hr]
      push_cast
      rw [Int.toNat_of_nonneg (by omega)]
      omega
    · rw [hsd]
      congr 3
      omega
  · intro hd
    rw [Resize_of_eq _ ctx target (by omega)]
    exact ⟨rfl, rfl, rfl, rfl⟩

theorem Resize_accounting_witness :
    ((New 1 ([] : List Int) false doubleTask false).resizes [(1, 10), (1, 2)]).workerCount
        = (((New 1 ([] : List Int) false doubleTask false).resizes [(1, 10), (1, 2)]).spawned : Int)
          - (((New 1 ([] : List Int) false doubleTask false).resizes
              [(1, 10), (1, 2)]).removeRequested : Int) ∧
      ((New 1 ([] : List Int) false doubleTask false).resizes [(1, 10), (1, 2)]).spawned = 10 ∧
      ((New 1 ([] : List Int) false doubleTask false).resizes [(1, 10), (1, 2)]).removeRequested
        = 8 :=
  ⟨(Resize_accounting 1 ([] : List Int) false doubleTask false [(1, 10), (1, 2)]
      (by decide) 1 7 (by decide)).1, by decide, by decide⟩

/-! ## The autoscaler -/

/-- C4: for every strategy, metric, worker count `current` and bounds with
`0 ≤ min ≤ max`, after one `evaluate` tick `CurrentWorkers()` is
`min(max, max(min, strategy(current, metric)))`; it is within `[min, max]`, and
when the clamped value equals `current` the pool is left untouched. -/
theorem evaluate_clamps (a : AutoScaler) (val : Float64) (p : Pool T R)
    (hmin : 0 ≤ a.min) (hmm : a.min ≤ a.max) (hmax : IsInt a.max)
    (hp : IsInt p.workerCount) :
    (a.evaluate val p).CurrentWorkers
        = min a.max (max a.min (a.strategy p.CurrentWorkers val)) ∧
      a.min ≤ (a.evaluate val p).CurrentWorkers ∧
      (a.evaluate val p).CurrentWorkers ≤ a.max ∧
      (min a.max (max a.min (a.strategy p.CurrentWorkers val)) = p.CurrentWorkers →
        a.evaluate val p = p) := by
  have hcl : (if (if a.strategy p.CurrentWorkers val < a.min then a.min
        else a.strategy p.CurrentWorkers val) > a.max then a.max
      else (if a.strategy p.CurrentWorkers val < a.min then a.min
        else a.strategy p.CurrentWorkers val))
      = min a.max (max a.min (a.strategy p.CurrentWorkers val)) := by
    by_cases h1 : a.strategy p.CurrentWorkers val < a.min
    · rw [if_pos h1, if_neg (by omega), max_eq_left (by omega), min_eq_right hmm]
    · rw [if_neg h1, max_eq_right (by omega)]
      by_cases h2 : a.strategy p.CurrentWorkers val > a.max
      · rw [if_pos h2, min_eq_left (by omega)]
      · rw [if_neg h2, min_eq_right (by omega)]
  have hlo : a.min ≤ min a.max (max a.min (a.strategy p.CurrentWorkers val)) :=
    le_min hmm (le_max_left _ _)
  have hhi : min a.max (max a.min (a.strategy p.CurrentWorkers val)) ≤ a.max :=
    min_le_left _ _
  have hev : (a.evaluate val p).CurrentWorkers
      = min a.max (max a.min (a.strategy p.CurrentWorkers val)) := by
    unfold AutoScaler.evaluate
    simp only [hcl]
    by_cases hne : min a.max (max a.min (a.strategy p.CurrentWorkers val)) = p.CurrentWorkers
    · simp only [ne_eq, hne, not_true_eq_false, if_false]
    · simp only [ne_eq, hne, not_false_eq_true, if_true]
      have hi : IsInt (min a.max (max a.min (a.strategy p.CurrentWorkers val))) := by
        unfold IsInt at *
        omega
      unfold Pool.CurrentWorkers at *
      rw [Resize_workerCount p 0 _ hp hi, if_neg (by omega)]
  refine ⟨hev, by rw [hev]; exact hlo, by rw [hev]; exact hhi, ?_⟩
  intro he
  unfold AutoScaler.evaluate
  simp only [hcl, ne_eq, he, not_true_eq_false, if_false]

theorem evaluate_clamps_witness :
    (((NewAutoScaler 1 5).SetStrategy (fun curr _ => addInt curr 10)).evaluate
        (Float64.fin 100) ((New 2 ([] : List Int) false doubleTask false).Run 1)).CurrentWorkers
      = 5 :=
  (evaluate_clamps ((NewAutoScaler 1 5).SetStrategy (fun curr _ => addInt curr 10))
    (Float64.fin 100) ((New 2 ([] : List Int) false doubleTask false).Run 1)
    (by decide) (by decide) (by decide) (by decide)).1.trans (by decide)

/-- C5: the strategy installed by `WithThresholdStrategy(low, high, step)` returns
`current + step` if `metric > high`, otherwise `current - step` if
`metric < low`, otherwise `current`.  The `+` and `-` are those of Go `int`:
the mathematical sum and difference whenever these fit in an `int`. -/
theorem WithThresholdStrategy_strategy (a : AutoScaler) (low high : Float64)
    (step current : Int) (metric : Float64) :
    (Float64.gt metric high = true →
        (a.WithThresholdStrategy low high step).strategy current metric = addInt current step ∧
        (IsInt (current + step) →
          (a.WithThresholdStrategy low high step).strategy current metric = current + step)) ∧
      (Float64.gt metric high = false → Float64.lt metric low = true →
        (a.WithThresholdStrategy low high step).strategy current metric = subInt current step ∧
        (IsInt (current - step) →
          (a.WithThresholdStrategy low high step).strategy current metric = current - step)) ∧
      (Float64.gt metric high = false → Float64.lt metric low = false →
        (a.WithThresholdStrategy low high step).strategy current metric = current) := by
  unfold AutoScaler.WithThresholdStrategy AutoScaler.SetStrategy
  refine ⟨?_, ?_, ?_⟩
  · intro h
    simp only [h, if_true]
    exact ⟨trivial, fun hi => wrapInt_of_isInt hi⟩
  · intro h1 h2
    simp only [h1, h2, if_true, Bool.false_eq_true, if_false]
    exact ⟨trivial, fun hi => wrapInt_of_isInt hi⟩
  · intro h1 h2
    simp only [h1, h2, Bool.false_eq_true, if_false]

theorem WithThresholdStrategy_strategy_witness :
    ((NewAutoScaler 1 10).WithThresholdStrategy (Float64.fin 20) (Float64.fin 80) 2).strategy 5
        (Float64.fin 90) = 7 ∧
      ((NewAutoScaler 1 10).WithThresholdStrategy (Float64.fin 20) (Float64.fin 80) 2).strategy 7
        (Float64.fin 10) = 5 ∧
      ((NewAutoScaler 1 10).WithThresholdStrategy (Float64.fin 20) (Float64.fin 80) 2).strategy 5
        (Float64.fin 50) = 5 :=
  ⟨((WithThresholdStrategy_strategy (NewAutoScaler 1 10) (Float64.fin 20) (Float64.fin 80) 2 5
      (Float64.fin 90)).1 (by decide)).2 (by decide),
    ((WithThresholdStrategy_strategy (NewAutoScaler 1 10) (Float64.fin 20) (Float64.fin 80) 2 7
      (Float64.fin 10)).2.1 (by decide) (by decide)).2 (by decide),
    (WithThresholdStrategy_strategy (NewAutoScaler 1 10) (Float64.fin 20) (Float64.fin 80) 2 5
      (Float64.fin 50)).2.2 (by decide) (by decide)⟩

/-- C6: the strategy installed by `WithInverseThresholdStrategy(low, high, step)`
returns `current - step` if `metric > high`, otherwise `current + step` if
`metric < low`, otherwise `current`.  The `+` and `-` are those of Go `int`:
the mathematical sum and difference whenever these fit in an `int`. -/
theorem WithInverseThresholdStrategy_strategy (a : AutoScaler) (low high : Float64)
    (step current : Int) (metric : Float64) :
    (Float64.gt metric high = true →
        (a.WithInverseThresholdStrategy low high step).strategy current metric
          = subInt current step ∧
        (IsInt (current - step) →
          (a.WithInverseThresholdStrategy low high step).strategy current metric
            = current - step)) ∧
      (Float64.gt metric high = false → Float64.lt metric low = true →
        (a.WithInverseThresholdStrategy low high step).strategy current metric
          = addInt current step ∧
        (IsInt (current + step) →
          (a.WithInverseThresholdStrategy low high step).strategy current metric
            = current + step)) ∧
      (Float64.gt metric high = false → Float64.lt metric low = false →
        (a.WithInverseThresholdStrategy low high step).strategy current metric = current) := by
  unfold AutoScaler.WithInverseThresholdStrategy AutoScaler.SetStrategy
  refine ⟨?_, ?_, ?_⟩
  · intro h
    simp only [h, if_true]
    exact ⟨trivial, fun hi => wrapInt_of_isInt hi⟩
  · intro h1 h2
    simp only [h1, h2, if_true, Bool.false_eq_true, if_false]
    exact ⟨trivial, fun hi => wrapInt_of_isInt hi⟩
  · intro h1 h2
    simp only [h1, h2, Bool.false_eq_true, if_false]

theorem WithInverseThresholdStrategy_strategy_witness :
    ((NewAutoScaler 1 10).WithInverseThresholdStrategy (Float64.fin 20) (Float64.fin 80)
        2).strategy 5 (Float64.fin 95) = 3 ∧
      ((NewAutoScaler 1 10).WithInverseThresholdStrategy (Float64.fin 20) (Float64.fin 80)
        2).strategy 5 (Float64.fin 10) = 7 ∧
      ((NewAutoScaler 1 10).WithInverseThresholdStrategy (Float64.fin 20) (Float64.fin 80)
        2).strategy 5 (Float64.fin 50) = 5 :=
  ⟨((WithInverseThresholdStrategy_strategy (NewAutoScaler 1 10) (Float64.fin 20) (Float64.fin 80)
      2 5 (Float64.fin 95)).1 (by decide)).2 (by decide),
    ((WithInverseThresholdStrategy_strategy (NewAutoScaler 1 10) (Float64.fin 20) (Float64.fin 80)
      2 5 (Float64.fin 10)).2.1 (by decide) (by decide)).2 (by decide),
    (WithInverseThresholdStrategy_strategy (NewAutoScaler 1 10) (Float64.fin 20) (Float64.fin 80)
      2 5 (Float64.fin 50)).2.2 (by decide) (by decide)⟩

/-! ## The band between the thresholds -/

theorem Float64.not_lt_of_eq {m b : Float64} (h : Float64.eq m b = true) :
    Float64.lt m b = false ∧ Float64.lt b m = false := by
  cases m <;> cases b <;> simp_all [Float64.eq, Float64.lt]

theorem Float64.lt_congr_left {m b c : Float64} (h : Float64.eq m b = true) :
    Float64.lt m c = Float64.lt b c := by
  cases m <;> cases b <;> cases c <;> simp_all [Float64.eq, Float64.lt]

theorem Float64.lt_congr_right {m b c : Float64} (h : Float64.eq m b = true) :
    Float64.lt c m = Float64.lt c b := by
  cases m <;> cases b <;> cases c <;> simp_all [Float64.eq, Float64.lt]

theorem Float64.not_lt_of_le {a b : Float64} (h : Float64.le a b = true) :
    Float64.lt b a = false := by
  cases a <;> cases b <;> simp_all [Float64.le, Float64.eq, Float64.lt]
  rcases h with h | h
  · exact le_of_lt h
  · exact le_of_eq h

/-- C7 (counterexample): with `low = 80 > high = 20`, a metric equal to `low`
makes the threshold strategy return `current + step`, and a metric equal to
`high` makes the inverse strategy return `current + step`. -/
theorem band_edges_counterexample :
    Float64.eq (Float64.fin 80) (Float64.fin 80) = true ∧
      ((NewAutoScaler 1 10).WithThresholdStrategy (Float64.fin 80) (Float64.fin 20) 2).strategy 5
        (Float64.fin 80) = 7 ∧
      ((NewAutoScaler 1 10).WithThresholdStrategy (Float64.fin 80) (Float64.fin 20) 2).strategy 5
        (Float64.fin 80) ≠ 5 ∧
      Float64.eq (Float64.fin 20) (Float64.fin 20) = true ∧
      ((NewAutoScaler 1 10).WithInverseThresholdStrategy (Float64.fin 80) (Float64.fin 20)
        2).strategy 5 (Float64.fin 20) = 7 ∧
      ((NewAutoScaler 1 10).WithInverseThresholdStrategy (Float64.fin 80) (Float64.fin 20)
        2).strategy 5 (Float64.fin 20) ≠ 5 := by
  decide

/-- C7 (amended): for every `low ≤ high`, step and current count, both built-in
strategies return `current` unchanged when the metric equals `low` and when it
equals `high`. -/
theorem band_edges_unchanged (a : AutoScaler) (low high : Float64) (step current : Int)
    (metric : Float64) (hlh : Float64.le low high = true)
    (hm : Float64.eq metric low = true ∨ Float64.eq metric high = true) :
    (a.WithThresholdStrategy low high step).strategy current metric = current ∧
      (a.WithInverseThresholdStrategy low high step).strategy current metric = current := by
  have hgt : Float64.gt metric high = false ∧ Float64.lt metric low = false := by
    unfold Float64.gt
    rcases hm with hm | hm
    · exact ⟨by rw [Float64.lt_congr_right hm]; exact Float64.not_lt_of_le hlh,
        (Float64.not_lt_of_eq hm).1⟩
    · exact ⟨(Float64.not_lt_of_eq hm).2,
        by rw [Float64.lt_congr_left hm]; exact Float64.not_lt_of_le hlh⟩
  unfold AutoScaler.WithThresholdStrategy AutoScaler.WithInverseThresholdStrategy
    AutoScaler.SetStrategy
  simp only [hgt.1, hgt.2, Bool.false_eq_true, if_false, and_self]

theorem band_edges_unchanged_witness :
    ((NewAutoScaler 1 10).WithThresholdStrategy (Float64.fin 20) (Float64.fin 80) 2).strategy 5
        (Float64.fin 80) = 5 ∧
      ((NewAutoScaler 1 10).WithInverseThresholdStrategy (Float64.fin 20) (Float64.fin 80)
        2).strategy 5 (Float64.fin 80) = 5 :=
  band_edges_unchanged (NewAutoScaler 1 10) (Float64.fin 20) (Float64.fin 80) 2 5
    (Float64.fin 80) (by decide) (Or.inr (by decide))

/-! ## Worker steps -/

theorem set_split {α : Type} (l : List α) (i : Nat) (a : α) (h : l[i]? = some a) :
    ∃ l1 l2, l = l1 ++ a :: l2 ∧ ∀ b, l.set i b = l1 ++ b :: l2 := by
  induction l generalizing i with
  | nil => simp at h
  | cons x xs ih =>
    cases i with
    | zero =>
      simp at h
      subst h
      exact ⟨[], xs, rfl, fun b => rfl⟩
    | succ j =>
      simp at h
      obtain ⟨l1, l2, h1, h2⟩ := ih j h
      refine ⟨x :: l1, l2, by rw [h1]; rfl, fun b => ?_⟩
      rw [List.set_cons_succ, h2 b]
      rfl

theorem getElem?_set_same {α : Type} (l : List α) (i : Nat) (a b : α) (h : l[i]? = some a) :
    (l.set i b)[i]? = some b := by
  have hlt : i < l.length := by
    rcases List.getElem?_eq_some.mp h with ⟨hlt, _⟩
    exact hlt
  exact List.getElem?_set_self hlt

theorem step_input (p : Pool T R) [Inhabited R] (i ctx : Nat) (x : T) (rest : List T)
    (hc : p.crashed = false) (hw : p.workers[i]? = some ⟨ctx, WorkerState.selecting⟩)
    (hin : p.inputs = x :: rest) :
    p.step (Event.loop i LoopCase.input)
      = Pool.safeExecute { p with inputs := rest } i ctx x := by
  unfold Pool.step
  rw [if_neg (by rw [hc]; decide)]
  simp only [hw]
  unfold Pool.worker
  simp only [hin]

theorem safeExecute_fields (p : Pool T R) [Inhabited R] (i ctx : Nat) (x : T) :
    (p.safeExecute i ctx x).workers
        = p.workers.set i ⟨ctx, WorkerState.sending (panicBarrier (p.task (p.ctxDone ctx) x))⟩ ∧
      (p.safeExecute i ctx x).sent = p.sent ∧
      (p.safeExecute i ctx x).crashed = p.crashed ∧
      (p.safeExecute i ctx x).wg = p.wg ∧
      (p.safeExecute i ctx x).results = p.results ∧
      (p.safeExecute i ctx x).cancelled = p.cancelled ∧
      (p.safeExecute i ctx x).inputs = p.inputs ∧
      (p.safeExecute i ctx x).task = p.task := by
  unfold Pool.safeExecute
  by_cases ho : p.observer = true <;> simp [ho, Pool.ctxDone]

theorem step_send (p : Pool T R) [Inhabited R] (i ctx : Nat) (r : Result R)
    (hc : p.crashed = false) (hw : p.workers[i]? = some ⟨ctx, WorkerState.sending r⟩)
    (hres : p.results = Chan.opened) :
    p.step (Event.exec i SendCase.send)
      = { p with sent := p.sent ++ [r],
                 workers := p.workers.set i ⟨ctx, WorkerState.selecting⟩ } := by
  unfold Pool.step
  rw [if_neg (by rw [hc]; decide)]
  simp only [hw]
  unfold Pool.safeExecuteSelect
  simp only [hres]

theorem step_drop (p : Pool T R) [Inhabited R] (i ctx : Nat) (r : Result R)
    (hc : p.crashed = false) (hw : p.workers[i]? = some ⟨ctx, WorkerState.sending r⟩)
    (hctx : p.ctxDone ctx = false) :
    p.step (Event.exec i SendCase.done) = p := by
  unfold Pool.step
  rw [if_neg (by rw [hc]; decide)]
  simp only [hw]
  unfold Pool.safeExecuteSelect
  simp only [hctx, Bool.false_eq_true, if_false]

theorem input_then_send (p : Pool T R) [Inhabited R] (i ctx : Nat) (x : T) (rest : List T)
    (hc : p.crashed = false) (hw : p.workers[i]? = some ⟨ctx, WorkerState.selecting⟩)
    (hin : p.inputs = x :: rest) (hctx : p.ctxDone ctx = false)
    (hres : p.results = Chan.opened) :
    DeliversOnce p i ctx (panicBarrier (p.task false x)) ∧
      (p.run [Event.loop i LoopCase.input, Event.exec i SendCase.send]).task = p.task ∧
      (p.run [Event.loop i LoopCase.input, Event.exec i SendCase.send]).cancelled
        = p.cancelled ∧
      (p.run [Event.loop i LoopCase.input, Event.exec i SendCase.send]).results = p.results := by
  have h1 := step_input p i ctx x rest hc hw hin
  obtain ⟨f1, f2, f3, f4, f5, f6, f7, f8⟩ :=
    safeExecute_fields ({ p with inputs := rest } : Pool T R) i ctx x
  have hctx2 : Pool.ctxDone ({ p with inputs := rest } : Pool T R) ctx = false := hctx
  rw [hctx2] at f1
  have hw1 : (p.step (Event.loop i LoopCase.input)).workers[i]?
      = some ⟨ctx, WorkerState.sending (panicBarrier (p.task false x))⟩ := by
    rw [h1, f1]
    exact getElem?_set_same _ _ _ _ hw
  have hc1 : (p.step (Event.loop i LoopCase.input)).crashed = false := by
    rw [h1, f3]
    exact hc
  have hres1 : (p.step (Event.loop i LoopCase.input)).results = Chan.opened := by
    rw [h1, f5]
    exact hres
  have hctx1 : (p.step (Event.loop i LoopCase.input)).ctxDone ctx = false := by
    unfold Pool.ctxDone
    rw [h1, f6]
    exact hctx
  have h2 := step_send _ i ctx _ hc1 hw1 hres1
  have hrun : p.run [Event.loop i LoopCase.input, Event.exec i SendCase.send]
      = (p.step (Event.loop i LoopCase.input)).step (Event.exec i SendCase.send) := rfl
  refine ⟨⟨hw1, by rw [h1, f2], step_drop _ i ctx _ hc1 hw1 hctx1, ?_, ?_, ?_, ?_, ?_⟩,
    ?_, ?_, ?_⟩
  · rw [hrun, h2]
    simp only
    rw [h1, f2]
  · rw [hrun, h2]
    simp only
    exact getElem?_set_same _ _ _ _ hw1
  · rw [hrun, h2]
    simp only
    rw [h1, f4]
  · rw [hrun, h2]
    simp only
    exact hc1
  · rw [hrun, h2]
    simp only
    rw [h1, f7, hin]
    rfl
  · rw [hrun, h2]
    simp only
    rw [h1, f8]
  · rw [hrun, h2]
    simp only
    rw [h1, f6]
  · rw [hrun, h2]
    simp only
    rw [h1, f5]

/-- C3 (counterexample): on a pool started with 0 workers whose `results` the
supervisor has closed and which was then resized to 1, the worker is at its
`select`, its context is not cancelled and the task panics on the input 666 it
takes; yet no `Result` is sent: the send is a send on the closed channel, a
runtime panic outside the barrier. -/
theorem safeExecute_barrier_counterexample :
    (((New 0 [666, 2] true flakyTask false).Run 1).run
        [Event.supervisorClose, Event.resize 1 1]).crashed = false ∧
      (((New 0 [666, 2] true flakyTask false).Run 1).run
        [Event.supervisorClose, Event.resize 1 1]).workers[0]?
        = some ⟨1, WorkerState.selecting⟩ ∧
      (((New 0 [666, 2] true flakyTask false).Run 1).run
        [Event.supervisorClose, Event.resize 1 1]).inputs = [666, 2] ∧
      (((New 0 [666, 2] true flakyTask false).Run 1).run
        [Event.supervisorClose, Event.resize 1 1]).ctxDone 1 = false ∧
      (((New 0 [666, 2] true flakyTask false).Run 1).run
        [Event.supervisorClose, Event.resize 1 1]).task false 666
        = TaskOutcome.panicked "something went wrong!" ∧
      (((New 0 [666, 2] true flakyTask false).Run 1).run
        [Event.supervisorClose, Event.resize 1 1]).results = Chan.closed ∧
      (((New 0 [666, 2] true flakyTask false).Run 1).run
        [Event.supervisorClose, Event.resize 1 1, Event.loop 0 LoopCase.input,
          Event.exec 0 SendCase.send]).sent = [] ∧
      (((New 0 [666, 2] true flakyTask false).Run 1).run
        [Event.supervisorClose, Event.resize 1 1, Event.loop 0 LoopCase.input,
          Event.exec 0 SendCase.send]).crashed = true ∧
      ¬ DeliversOnce
        (((New 0 [666, 2] true flakyTask false).Run 1).run
          [Event.supervisorClose, Event.resize 1 1])
        0 1 ⟨default, some ⟨"panic: " ++ "something went wrong!"⟩⟩ := by
  refine ⟨by decide, by decide, by decide, by decide, by rfl, by decide, by decide,
    by decide, ?_⟩
  intro h
  exact absurd h.2.2.2.1 (by decide)

/-- C3 (amended): when the task panics with description `d` on the input worker
`i` takes, the context not being cancelled and `results` being open (made by
`Run` and not closed), exactly one `Result` is sent: its `Value` is the zero
value of `R` and its `Err` has the message `"panic: "` followed by `d`; the
worker is back in its loop afterwards, live, and takes the next input.  When the
task returns `(v, e)`, the `Result` sent is exactly `(v, e)`. -/
theorem safeExecute_barrier (p : Pool T R) [Inhabited R] (i ctx : Nat) (x : T) (rest : List T)
    (hc : p.crashed = false) (hw : p.workers[i]? = some ⟨ctx, WorkerState.selecting⟩)
    (hin : p.inputs = x :: rest) (hctx : p.ctxDone ctx = false)
    (hres : p.results = Chan.opened) :
    (∀ d, p.task false x = TaskOutcome.panicked d →
        DeliversOnce p i ctx ⟨default, some ⟨"panic: " ++ d⟩⟩) ∧
      (∀ v e, p.task false x = TaskOutcome.returned v e → DeliversOnce p i ctx ⟨v, e⟩) ∧
      (∀ y rest2, rest = y :: rest2 →
        DeliversOnce (p.run [Event.loop i LoopCase.input, Event.exec i SendCase.send]) i ctx
          (panicBarrier (p.task false y))) := by
  obtain ⟨h, ht, hcan, hr⟩ := input_then_send p i ctx x rest hc hw hin hctx hres
  refine ⟨?_, ?_, ?_⟩
  · intro d hd
    rw [hd] at h
    exact h
  · intro v e hv
    rw [hv] at h
    exact h
  · intro y rest2 hy
    obtain ⟨_, _, _, _, hw2, _, hc2, hin2⟩ := h
    have hin3 : (p.run [Event.loop i LoopCase.input, Event.exec i SendCase.send]).inputs
        = y :: rest2 := by
      rw [hin2, hin, hy]
      rfl
    have hctx3 : (p.run [Event.loop i LoopCase.input, Event.exec i SendCase.send]).ctxDone ctx
        = false := by
      unfold Pool.ctxDone
      rw [hcan]
      exact hctx
    have h3 := (input_then_send _ i ctx y rest2 hc2 hw2 hin3 hctx3 (by rw [hr]; exact hres)).1
    rw [ht] at h3
    exact h3

theorem safeExecute_barrier_witness :
    ((((New 2 [1, 666, 2] true flakyTask false).Run 1).run
        [Event.loop 0 LoopCase.input, Event.loop 1 LoopCase.input,
          Event.exec 1 SendCase.send]).sent
        = [⟨0, some ⟨"panic: something went wrong!"⟩⟩]) ∧
      DeliversOnce
        (((New 2 [1, 666, 2] true flakyTask false).Run 1).run [Event.loop 0 LoopCase.input])
        1 1 ⟨default, some ⟨"panic: " ++ "something went wrong!"⟩⟩ :=
  ⟨by decide,
    (safeExecute_barrier
      (((New 2 [1, 666, 2] true flakyTask false).Run 1).run [Event.loop 0 LoopCase.input])
      1 1 666 [2] (by decide) (by decide) (by decide) (by decide) (by decide)).1
      "something went wrong!" (by rfl)⟩

/-! ## Closing of `results` -/

/-- C8 (failing schedules): a pool started with 0 workers has `results` closed by
the supervisor at once, and a later `Resize(ctx, 1)` then spawns a live worker,
whose send of the result for the next input is a send on a closed channel; the
same happens to a pool resized to 0 and later resized up. -/
theorem closed_then_spawned :
    (((New 0 [7] true doubleTask false).Run 1).run
        [Event.supervisorClose, Event.resize 1 1]).results = Chan.closed ∧
      liveWorkers (((New 0 [7] true doubleTask false).Run 1).run
        [Event.supervisorClose, Event.resize 1 1]).workers = 1 ∧
      (((New 0 [7] true doubleTask false).Run 1).run
        [Event.supervisorClose, Event.resize 1 1]).wg = 1 ∧
      (((New 0 [7] true doubleTask false).Run 1).run
        [Event.supervisorClose, Event.resize 1 1, Event.loop 0 LoopCase.input,
          Event.exec 0 SendCase.send]).crashed = true ∧
      (((New 1 [7] true doubleTask false).Run 1).run
        [Event.resize 1 0, Event.loop 0 (LoopCase.remove 0), Event.supervisorClose,
          Event.resize 1 1]).results = Chan.closed ∧
      liveWorkers (((New 1 [7] true doubleTask false).Run 1).run
        [Event.resize 1 0, Event.loop 0 (LoopCase.remove 0), Event.supervisorClose,
          Event.resize 1 1]).workers = 1 := by
  decide

/-! ## Every input gets its result -/

theorem Resize_frame (p : Pool T R) (ctx : Nat) (n : Int) :
    (p.Resize ctx n).task = p.task ∧ (p.Resize ctx n).inputsClose = p.inputsClose ∧
      (p.Resize ctx n).cancelled = p.cancelled ∧ (p.Resize ctx n).sent = p.sent ∧
      (p.Resize ctx n).inputs = p.inputs ∧ (p.Resize ctx n).results = p.results ∧
      (p.Resize ctx n).supervisors = p.supervisors ∧ (p.Resize ctx n).crashed = p.crashed := by
  unfold Pool.Resize
  by_cases hd : subInt (if n < 0 then 0 else n) p.workerCount = 0
  · simp only [hd, if_true, and_self]
  · simp only [hd, if_false]
    by_cases hpos : subInt (if n < 0 then 0 else n) p.workerCount > 0 <;>
      by_cases ho : p.observer = true <;> simp [hpos, ho]

theorem liveWorkers_replicate (k ctx : Nat) :
    liveWorkers (List.replicate k (⟨ctx, WorkerState.selecting⟩ : Worker R)) = k := by
  induction k with
  | zero => rfl
  | succ k ih =>
    rw [List.replicate_succ]
    unfold liveWorkers at *
    simp only [List.filter_cons, if_true, List.length_cons, ih]

theorem heldResults_replicate (k ctx : Nat) :
    heldResults (List.replicate k (⟨ctx, WorkerState.selecting⟩ : Worker R)) = [] := by
  induction k with
  | zero => rfl
  | succ k ih =>
    rw [List.replicate_succ]
    unfold heldResults at *
    simp only [List.filterMap_cons, ih]

theorem Draining_start [Inhabited R] (task : TaskFunc T R) (items : List T) (q : Pool T R)
    (k ctx : Nat) (hk : 0 < k)
    (hc : q.crashed = false) (ht : q.task = task) (hcl : q.inputsClose = true)
    (hcan : q.cancelled = []) (hsd : q.senders = []) (hwg : q.wg = k)
    (hws : q.workers = List.replicate k ⟨ctx, WorkerState.selecting⟩)
    (hsent : q.sent = []) (hin : q.inputs = items)
    (hres : q.results = Chan.opened) (hsup : q.supervisors = 1) :
    Draining task items q := by
  constructor
  · exact hc
  · exact ht
  · exact hcl
  · exact hcan
  · exact hsd
  · rw [hwg, hws, liveWorkers_replicate]
  · rw [hws]
    intro h
    have hl := congrArg List.length h
    simp at hl
    omega
  · rw [hsent, hin, hws, heldResults_replicate]
    simp
  · intro w hwm hex
    rw [hws] at hwm
    rw [(List.mem_replicate.mp hwm).2] at hex
    cases hex
  · exact Or.inl ⟨hres, hsup⟩

theorem Draining_Run [Inhabited R] (initialWorkers : Int) (items : List T)
    (task : TaskFunc T R) (obs : Bool) (ctx : Nat)
    (hw : 1 ≤ initialWorkers) (hi : IsInt initialWorkers) :
    Draining task items ((New initialWorkers items true task obs).Run ctx) := by
  have hinit : (if initialWorkers < 0 then 0 else initialWorkers) = initialWorkers :=
    if_neg (by omega)
  have hmax : max 0 initialWorkers = initialWorkers := max_eq_right (by omega)
  have hup := Resize_up
    ({ New initialWorkers items true task obs with results := Chan.opened } : Pool T R)
    ctx initialWorkers (le_refl 0) (by unfold New IsInt; simp) hi
    (by show 0 < max 0 initialWorkers - 0; omega)
  have hfr := Resize_frame
    ({ New initialWorkers items true task obs with results := Chan.opened } : Pool T R)
    ctx initialWorkers
  obtain ⟨_, _, hwg, hws, hsd⟩ := hup
  obtain ⟨g1, g2, g3, g4, g5, g6, g7, g8⟩ := hfr
  have hrun : (New initialWorkers items true task obs).Run ctx
      = { Pool.Resize ({ New initialWorkers items true task obs with results := Chan.opened } :
            Pool T R) ctx initialWorkers with
          supervisors := (Pool.Resize
            ({ New initialWorkers items true task obs with results := Chan.opened } : Pool T R)
            ctx initialWorkers).supervisors + 1 } := by
    unfold Pool.Run
    simp only [New, hinit]
  rw [hrun]
  refine Draining_start task items _ initialWorkers.toNat ctx (by omega)
    g8 g1 g2 g3 hsd ?_ ?_ g4 g5 g6 ?_
  · refine hwg.trans ?_
    show 0 + (max 0 initialWorkers - 0).toNat = initialWorkers.toNat
    rw [hmax]
    simp
  · refine hws.trans ?_
    show [] ++ List.replicate (max 0 initialWorkers - 0).toNat _ = _
    rw [hmax]
    simp
  · show (Pool.Resize _ ctx initialWorkers).supervisors + 1 = 1
    rw [g7]
    rfl

theorem liveWorkers_append (l1 l2 : List (Worker R)) :
    liveWorkers (l1 ++ l2) = liveWorkers l1 + liveWorkers l2 := by
  unfold liveWorkers
  rw [List.filter_append, List.length_append]

theorem heldResults_append (l1 l2 : List (Worker R)) :
    heldResults (l1 ++ l2) = heldResults l1 ++ heldResults l2 := by
  unfold heldResults
  rw [List.filterMap_append]

theorem liveWorkers_cons_selecting (c : Nat) (l : List (Worker R)) :
    liveWorkers (⟨c, WorkerState.selecting⟩ :: l) = liveWorkers l + 1 := by
  unfold liveWorkers
  simp only [List.filter_cons, if_true, List.length_cons]

theorem liveWorkers_cons_sending (c : Nat) (r : Result R) (l : List (Worker R)) :
    liveWorkers (⟨c, WorkerState.sending r⟩ :: l) = liveWorkers l + 1 := by
  unfold liveWorkers
  simp only [List.filter_cons, if_true, List.length_cons]

theorem liveWorkers_cons_exited (c : Nat) (l : List (Worker R)) :
    liveWorkers (⟨c, WorkerState.exited⟩ :: l) = liveWorkers l := by
  unfold liveWorkers
  simp only [List.filter_cons, Bool.false_eq_true, if_false]

theorem heldResults_cons_selecting (c : Nat) (l : List (Worker R)) :
    heldResults (⟨c, WorkerState.selecting⟩ :: l) = heldResults l := by
  unfold heldResults
  simp only [List.filterMap_cons]

theorem heldResults_cons_sending (c : Nat) (r : Result R) (l : List (Worker R)) :
    heldResults (⟨c, WorkerState.sending r⟩ :: l) = r :: heldResults l := by
  unfold heldResults
  simp only [List.filterMap_cons]

theorem heldResults_cons_exited (c : Nat) (l : List (Worker R)) :
    heldResults (⟨c, WorkerState.exited⟩ :: l) = heldResults l := by
  unfold heldResults
  simp only [List.filterMap_cons]

theorem liveWorkers_eq_zero (ws : List (Worker R)) (h : liveWorkers ws = 0) :
    (∀ w ∈ ws, w.st = WorkerState.exited) ∧ heldResults ws = [] := by
  induction ws with
  | nil => exact ⟨fun w hw => (by cases hw), rfl⟩
  | cons w ws ih =>
    obtain ⟨c, st⟩ := w
    cases st with
    | selecting =>
      rw [liveWorkers_cons_selecting] at h
      omega
    | sending r =>
      rw [liveWorkers_cons_sending] at h
      omega
    | exited =>
      rw [liveWorkers_cons_exited] at h
      obtain ⟨h1, h2⟩ := ih h
      refine ⟨?_, by rw [heldResults_cons_exited, h2]⟩
      intro w hw
      rcases List.mem_cons.mp hw with hw | hw
      · rw [hw]
      · exact h1 w hw

theorem safeExecute_frame (p : Pool T R) [Inhabited R] (i ctx : Nat) (x : T) :
    (p.safeExecute i ctx x).inputsClose = p.inputsClose ∧
      (p.safeExecute i ctx x).senders = p.senders ∧
      (p.safeExecute i ctx x).supervisors = p.supervisors := by
  unfold Pool.safeExecute
  by_cases ho : p.observer = true <;> simp [ho]

theorem Draining_input [Inhabited R] (task : TaskFunc T R) (items : List T) (q p : Pool T R)
    (i ctx : Nat) (x : T) (rest : List T) (hq : Draining task items q)
    (hw : q.workers[i]? = some ⟨ctx, WorkerState.selecting⟩) (hin : q.inputs = x :: rest)
    (hp : p = { q with inputs := rest }) :
    Draining task items (p.safeExecute i ctx x) := by
  have a1 : p.task = task := by rw [hp]; exact hq.task_eq
  have a2 : p.cancelled = [] := by rw [hp]; exact hq.cancelled
  have a3 : p.workers = q.workers := by rw [hp]
  have a4 : p.sent = q.sent := by rw [hp]
  have a5 : p.inputs = rest := by rw [hp]
  have a6 : p.crashed = false := by rw [hp]; exact hq.crashed
  have a7 : p.wg = q.wg := by rw [hp]
  have a8 : p.results = q.results := by rw [hp]
  have a9 : p.inputsClose = true := by rw [hp]; exact hq.closes
  have a10 : p.senders = [] := by rw [hp]; exact hq.senders
  have a11 : p.supervisors = q.supervisors := by rw [hp]
  clear hp
  obtain ⟨f1, f2, f3, f4, f5, f6, f7, f8⟩ := safeExecute_fields p i ctx x
  obtain ⟨e1, e2, e3⟩ := safeExecute_frame p i ctx x
  have hctx : p.ctxDone ctx = false := by
    unfold Pool.ctxDone
    simp [a2]
  rw [hctx, a1, a3] at f1
  obtain ⟨l1, l2, hl, hset⟩ := set_split _ _ _ hw
  have hws : (p.safeExecute i ctx x).workers
      = l1 ++ ⟨ctx, WorkerState.sending (panicBarrier (task false x))⟩ :: l2 := by
    rw [f1]
    exact hset _
  have hcons := hq.conserve
  rw [hl, hin] at hcons
  constructor
  · rw [f3]
    exact a6
  · rw [f8]
    exact a1
  · rw [e1]
    exact a9
  · rw [f6]
    exact a2
  · rw [e2]
    exact a10
  · rw [f4, hws, a7]
    refine hq.wg.trans ?_
    rw [hl, liveWorkers_append, liveWorkers_append, liveWorkers_cons_selecting,
      liveWorkers_cons_sending]
  · rw [hws]
    simp
  · rw [f2, f7, hws, ← hcons, a4, a5]
    rw [heldResults_append, heldResults_append, heldResults_cons_sending,
      heldResults_cons_selecting, List.map_cons]
    simp only [← Multiset.coe_add, ← Multiset.cons_coe, ← Multiset.singleton_add]
    abel
  · intro w hwm hex
    rw [hws] at hwm
    have hold : w ∈ q.workers := by
      rw [hl]
      rcases List.mem_append.mp hwm with h | h
      · exact List.mem_append_left _ h
      · rcases List.mem_cons.mp h with h | h
        · rw [h] at hex
          cases hex
        · exact List.mem_append_right _ (List.mem_cons_of_mem _ h)
    have := hq.exited w hold hex
    rw [hin] at this
    cases this
  · rw [f5, e3, f4, a8, a11, a7]
    exact hq.chan

theorem Draining_exit [Inhabited R] (task : TaskFunc T R) (items : List T) (q : Pool T R)
    (i ctx : Nat) (hq : Draining task items q)
    (hw : q.workers[i]? = some ⟨ctx, WorkerState.selecting⟩) (hin : q.inputs = []) :
    Draining task items (q.workerReturn i ctx) := by
  obtain ⟨l1, l2, hl, hset⟩ := set_split _ _ _ hw
  have hws : (q.workerReturn i ctx).workers = l1 ++ ⟨ctx, WorkerState.exited⟩ :: l2 :=
    hset _
  have hwg : q.wg = liveWorkers l1 + (liveWorkers l2 + 1) := by
    rw [hq.wg, hl, liveWorkers_append, liveWorkers_cons_selecting]
  have hcons := hq.conserve
  rw [hl, heldResults_append, heldResults_cons_selecting] at hcons
  constructor
  · exact hq.crashed
  · exact hq.task_eq
  · exact hq.closes
  · exact hq.cancelled
  · exact hq.senders
  · rw [hws, liveWorkers_append, liveWorkers_cons_exited]
    show q.wg - 1 = _
    omega
  · rw [hws]
    simp
  · rw [hws, heldResults_append, heldResults_cons_exited]
    exact hcons
  · intro w _ _
    exact hin
  · rcases hq.chan with h | h
    · exact Or.inl h
    · refine Or.inr ⟨h.1, h.2.1, ?_⟩
      show q.wg - 1 = 0
      omega

theorem Draining_sending_opened [Inhabited R] (task : TaskFunc T R) (items : List T)
    (q : Pool T R) (i ctx : Nat) (r : Result R) (hq : Draining task items q)
    (hw : q.workers[i]? = some ⟨ctx, WorkerState.sending r⟩) : q.results = Chan.opened := by
  rcases hq.chan with h | h
  · exact h.1
  · obtain ⟨l1, l2, hl, _⟩ := set_split _ _ _ hw
    have hwg := hq.wg
    rw [h.2.2, hl, liveWorkers_append, liveWorkers_cons_sending] at hwg
    omega

theorem Draining_send [Inhabited R] (task : TaskFunc T R) (items : List T) (q p : Pool T R)
    (i ctx : Nat) (r : Result R) (hq : Draining task items q)
    (hw : q.workers[i]? = some ⟨ctx, WorkerState.sending r⟩)
    (hp : p = { q with sent := q.sent ++ [r],
                       workers := q.workers.set i ⟨ctx, WorkerState.selecting⟩ }) :
    Draining task items p := by
  obtain ⟨l1, l2, hl, hset⟩ := set_split _ _ _ hw
  have hws : p.workers = l1 ++ ⟨ctx, WorkerState.selecting⟩ :: l2 := by
    rw [hp]
    exact hset _
  have a4 : p.sent = q.sent ++ [r] := by rw [hp]
  have a5 : p.inputs = q.inputs := by rw [hp]
  have a7 : p.wg = q.wg := by rw [hp]
  have a8 : p.results = q.results := by rw [hp]
  have a11 : p.supervisors = q.supervisors := by rw [hp]
  have hcons := hq.conserve
  rw [hl, heldResults_append, heldResults_cons_sending] at hcons
  constructor
  · rw [hp]
    exact hq.crashed
  · rw [hp]
    exact hq.task_eq
  · rw [hp]
    exact hq.closes
  · rw [hp]
    exact hq.cancelled
  · rw [hp]
    exact hq.senders
  · rw [a7, hws, hq.wg, hl, liveWorkers_append, liveWorkers_append, liveWorkers_cons_selecting,
      liveWorkers_cons_sending]
  · rw [hws]
    simp
  · rw [a4, a5, hws, ← hcons, heldResults_append, heldResults_cons_selecting]
    simp only [← Multiset.coe_add, ← Multiset.cons_coe, ← Multiset.singleton_add]
    abel
  · intro w hwm hex
    rw [hws] at hwm
    rw [a5]
    refine hq.exited w ?_ hex
    rw [hl]
    rcases List.mem_append.mp hwm with h | h
    · exact List.mem_append_left _ h
    · rcases List.mem_cons.mp h with h | h
      · rw [h] at hex
        cases hex
      · exact List.mem_append_right _ (List.mem_cons_of_mem _ h)
  · rw [a8, a11, a7]
    exact hq.chan

theorem Draining_close [Inhabited R] (task : TaskFunc T R) (items : List T) (q p : Pool T R)
    (hq : Draining task items q) (hwg : q.wg = 0)
    (hp : p = { q with results := Chan.closed, supervisors := q.supervisors - 1 }) :
    Draining task items p := by
  have hsup : q.supervisors - 1 = 0 := by
    rcases hq.chan with h | h
    · rw [h.2]
    · rw [h.2.1]
  constructor
  · rw [hp]
    exact hq.crashed
  · rw [hp]
    exact hq.task_eq
  · rw [hp]
    exact hq.closes
  · rw [hp]
    exact hq.cancelled
  · rw [hp]
    exact hq.senders
  · rw [hp]
    exact hq.wg
  · rw [hp]
    exact hq.nonempty
  · rw [hp]
    exact hq.conserve
  · rw [hp]
    exact hq.exited
  · rw [hp]
    exact Or.inr ⟨rfl, hsup, hwg⟩

theorem Draining_step [Inhabited R] (task : TaskFunc T R) (items : List T) (q : Pool T R)
    (e : Event) (hq : Draining task items q) (he : e.internal = true) :
    Draining task items (q.step e) := by
  have hcr : ¬ (q.crashed = true) := by
    rw [hq.crashed]
    decide
  have hdone : ∀ c, q.ctxDone c = false := by
    intro c
    unfold Pool.ctxDone
    simp [hq.cancelled]
  unfold Pool.step
  rw [if_neg hcr]
  cases e with
  | resize ctx target => cases he
  | cancel ctx => cases he
  | loop i c =>
    simp only
    cases hwi : q.workers[i]? with
    | none => exact hq
    | some w =>
      obtain ⟨ctx, st⟩ := w
      cases st with
      | sending r => exact hq
      | exited => exact hq
      | selecting =>
        simp only
        cases c with
        | done =>
          unfold Pool.worker
          simp only [hdone ctx, Bool.false_eq_true, if_false]
          exact hq
        | remove j =>
          unfold Pool.worker
          simp only [hq.senders, List.getElem?_nil]
          exact hq
        | input =>
          unfold Pool.worker
          cases hin : q.inputs with
          | nil =>
            simp only [hq.closes, if_true]
            exact Draining_exit task items q i ctx hq hwi hin
          | cons x rest =>
            simp only
            exact Draining_input task items q _ i ctx x rest hq hwi hin rfl
  | exec i c =>
    simp only
    cases hwi : q.workers[i]? with
    | none => exact hq
    | some w =>
      obtain ⟨ctx, st⟩ := w
      cases st with
      | selecting => exact hq
      | exited => exact hq
      | sending r =>
        simp only
        cases c with
        | done =>
          unfold Pool.safeExecuteSelect
          simp only [hdone ctx, Bool.false_eq_true, if_false]
          exact hq
        | send =>
          unfold Pool.safeExecuteSelect
          have ho := Draining_sending_opened task items q i ctx r hq hwi
          simp only [ho]
          exact Draining_send task items q _ i ctx r hq hwi (by rw [ho])
  | senderDone j =>
    simp only [hq.senders, List.getElem?_nil]
    exact hq
  | supervisorClose =>
    simp only
    by_cases hg : 0 < q.supervisors ∧ q.wg = 0
    · rw [if_pos hg]
      rcases hq.chan with h | h
      · simp only [h.1]
        exact Draining_close task items q _ hq hg.2 rfl
      · rw [h.2.1] at hg
        exact absurd hg.1 (by decide)
    · rw [if_neg hg]
      exact hq

theorem Draining_run [Inhabited R] (task : TaskFunc T R) (items : List T) (q : Pool T R)
    (evs : List Event) (hq : Draining task items q) (hev : ∀ e ∈ evs, e.internal = true) :
    Draining task items (q.run evs) := by
  induction evs generalizing q with
  | nil => exact hq
  | cons e es ih =>
    have h1 := Draining_step task items q e hq (hev e (List.mem_cons_self e es))
    exact ih (q.step e) h1 (fun d hd => hev d (List.mem_cons_of_mem e hd))

theorem Draining_closed [Inhabited R] (task : TaskFunc T R) (items : List T) (q : Pool T R)
    (hq : Draining task items q) (hcl : q.results = Chan.closed) :
    q.sent.Perm (items.map (fun x => panicBarrier (task false x))) := by
  have hwg : q.wg = 0 := by
    rcases hq.chan with h | h
    · rw [hcl] at h
      cases h.1
    · exact h.2.2
  have hlive : liveWorkers q.workers = 0 := by
    rw [← hq.wg]
    exact hwg
  obtain ⟨hex, hheld⟩ := liveWorkers_eq_zero q.workers hlive
  have hin : q.inputs = [] := by
    cases hws : q.workers with
    | nil => exact absurd hws hq.nonempty
    | cons w ws =>
      have hm : w ∈ q.workers := by
        rw [hws]
        exact List.mem_cons_self w ws
      exact hq.exited w hm (hex w hm)
  have hcons := hq.conserve
  rw [hheld, hin] at hcons
  simp only [List.map_nil, Multiset.coe_nil, add_zero] at hcons
  exact Multiset.coe_eq_coe.mp hcons

/-! ## A schedule that closes `results` always exists -/

theorem worker_cases (ws : List (Worker R)) :
    (∃ (i ctx : Nat) (r : Result R), ws[i]? = some (Worker.mk ctx (WorkerState.sending r))) ∨
      (∃ i ctx : Nat, ws[i]? = some (Worker.mk ctx (WorkerState.selecting : WorkerState R))) ∨
      liveWorkers ws = 0 := by
  induction ws with
  | nil => exact Or.inr (Or.inr rfl)
  | cons w ws ih =>
    obtain ⟨c, st⟩ := w
    cases st with
    | selecting => exact Or.inr (Or.inl ⟨0, c, by simp⟩)
    | sending r => exact Or.inl ⟨0, c, r, by simp⟩
    | exited =>
      rcases ih with ⟨i, ctx, r, h⟩ | ⟨i, ctx, h⟩ | h
      · exact Or.inl ⟨i + 1, ctx, r, by simpa using h⟩
      · exact Or.inr (Or.inl ⟨i + 1, ctx, by simpa using h⟩)
      · exact Or.inr (Or.inr (by rw [liveWorkers_cons_exited]; exact h))

theorem step_exit (p : Pool T R) [Inhabited R] (i ctx : Nat)
    (hc : p.crashed = false) (hw : p.workers[i]? = some ⟨ctx, WorkerState.selecting⟩)
    (hin : p.inputs = []) (hcl : p.inputsClose = true) :
    p.step (Event.loop i LoopCase.input) = p.workerReturn i ctx := by
  unfold Pool.step
  rw [if_neg (by rw [hc]; decide)]
  simp only [hw]
  unfold Pool.worker
  simp only [hin]
  rw [if_pos hcl]

theorem step_close (p : Pool T R) [Inhabited R]
    (hc : p.crashed = false) (hs : 0 < p.supervisors) (hwg : p.wg = 0)
    (hres : p.results = Chan.opened) :
    (p.step Event.supervisorClose).results = Chan.closed := by
  unfold Pool.step
  rw [if_neg (by rw [hc]; decide)]
  simp only
  rw [if_pos ⟨hs, hwg⟩]
  simp only [hres]

theorem remainingWork_safeExecute [Inhabited R] (p : Pool T R) (i ctx : Nat) (x : T)
    (hw : p.workers[i]? = some ⟨ctx, WorkerState.selecting⟩) :
    remainingWork (p.safeExecute i ctx x) = remainingWork p + 1 := by
  obtain ⟨f1, _, _, _, f5, _, f7, _⟩ := safeExecute_fields p i ctx x
  obtain ⟨l1, l2, hl, hset⟩ := set_split _ _ _ hw
  unfold remainingWork
  rw [f1, f5, f7, hset, hl]
  simp only [heldResults_append, heldResults_cons_sending, heldResults_cons_selecting,
    liveWorkers_append, liveWorkers_cons_sending, liveWorkers_cons_selecting,
    List.length_append, List.length_cons]
  omega

theorem Draining_progress [Inhabited R] (task : TaskFunc T R) (items : List T) (q : Pool T R)
    (hq : Draining task items q) (hres : q.results = Chan.opened) :
    ∃ e : Event, e.internal = true ∧ remainingWork (q.step e) < remainingWork q := by
  rcases worker_cases q.workers with ⟨i, ctx, r, hw⟩ | ⟨i, ctx, hw⟩ | hlive
  · refine ⟨Event.exec i SendCase.send, rfl, ?_⟩
    rw [step_send q i ctx r hq.crashed hw hres]
    obtain ⟨l1, l2, hl, hset⟩ := set_split _ _ _ hw
    unfold remainingWork
    simp only [hset, hres, if_true]
    rw [hl]
    simp only [heldResults_append, heldResults_cons_sending, heldResults_cons_selecting,
      liveWorkers_append, liveWorkers_cons_sending, liveWorkers_cons_selecting,
      List.length_append, List.length_cons]
    omega
  · refine ⟨Event.loop i LoopCase.input, rfl, ?_⟩
    obtain ⟨l1, l2, hl, hset⟩ := set_split _ _ _ hw
    cases hin : q.inputs with
    | nil =>
      rw [step_exit q i ctx hq.crashed hw hin hq.closes]
      unfold remainingWork Pool.workerReturn
      simp only [hset, hres, if_true, hin]
      rw [hl]
      simp only [heldResults_append, heldResults_cons_exited, heldResults_cons_selecting,
        liveWorkers_append, liveWorkers_cons_exited, liveWorkers_cons_selecting,
        List.length_append, List.length_cons]
      omega
    | cons x rest =>
      rw [step_input q i ctx x rest hq.crashed hw hin,
        remainingWork_safeExecute ({ q with inputs := rest } : Pool T R) i ctx x hw]
      unfold remainingWork
      simp only [hin, List.length_cons]
      omega
  · refine ⟨Event.supervisorClose, rfl, ?_⟩
    have hsup : q.supervisors = 1 := by
      rcases hq.chan with h | h
      · exact h.2
      · rw [hres] at h
        cases h.1
    have hwg : q.wg = 0 := by
      rw [hq.wg]
      exact hlive
    have hcl := step_close q hq.crashed (by rw [hsup]; decide) hwg hres
    have hstep : q.step Event.supervisorClose
        = { q with results := Chan.closed, supervisors := q.supervisors - 1 } := by
      unfold Pool.step
      rw [if_neg (by rw [hq.crashed]; decide)]
      simp only
      rw [if_pos ⟨by rw [hsup]; decide, hwg⟩]
      simp only [hres]
    unfold remainingWork
    rw [hstep]
    simp only [hres, if_true]
    rw [if_neg (by decide)]
    omega

theorem Draining_closes [Inhabited R] (task : TaskFunc T R) (items : List T) (n : Nat) :
    ∀ q : Pool T R, Draining task items q → remainingWork q ≤ n →
      ∃ evs : List Event, (∀ e ∈ evs, e.internal = true) ∧
        (q.run evs).results = Chan.closed := by
  induction n with
  | zero =>
    intro q hq hn
    rcases hq.chan with h | h
    · unfold remainingWork at hn
      rw [if_pos h.1] at hn
      omega
    · exact ⟨[], fun e he => (by cases he), h.1⟩
  | succ n ih =>
    intro q hq hn
    rcases hq.chan with h | h
    · obtain ⟨e, he, hlt⟩ := Draining_progress task items q hq h.1
      obtain ⟨evs, hevs, hcl⟩ := ih (q.step e) (Draining_step task items q e hq he) (by omega)
      refine ⟨e :: evs, ?_, hcl⟩
      intro d hd
      rcases List.mem_cons.mp hd with hd | hd
      · rw [hd]
        exact he
      · exact hevs d hd
    · exact ⟨[], fun e he => (by cases he), h.1⟩

/-- C2: for a pool started by `Run` with at least one worker on an input stream
of `N` items that the producer closes, with no cancellation and no later `Resize`:
the pool's goroutines can always run until `results` is closed, and in whatever
order they run, once `results` is closed exactly `N` results have been sent, one
per input item: they are the results of the items up to order, and all have a nil
error when the task returns none (as `n -> 2n` does). -/
theorem results_complete [Inhabited R] (initialWorkers : Int) (items : List T)
    (task : TaskFunc T R) (obs : Bool) (ctx : Nat)
    (hw : 1 ≤ initialWorkers) (hi : IsInt initialWorkers) :
    (∃ evs : List Event, (∀ e ∈ evs, e.internal = true) ∧
        (((New initialWorkers items true task obs).Run ctx).run evs).results = Chan.closed) ∧
      (∀ evs : List Event, (∀ e ∈ evs, e.internal = true) →
        (((New initialWorkers items true task obs).Run ctx).run evs).results = Chan.closed →
        (((New initialWorkers items true task obs).Run ctx).run evs).sent.length = items.length ∧
        (((New initialWorkers items true task obs).Run ctx).run evs).sent.Perm
          (items.map (fun x => panicBarrier (task false x))) ∧
        (((New initialWorkers items true task obs).Run ctx).run evs).crashed = false ∧
        ((∀ x, ∃ v, task false x = TaskOutcome.returned v none) →
          ∀ r ∈ (((New initialWorkers items true task obs).Run ctx).run evs).sent,
            r.Err = none)) := by
  have h0 := Draining_Run initialWorkers items task obs ctx hw hi
  refine ⟨Draining_closes task items _ _ h0 (le_refl _), ?_⟩
  intro evs hev hcl
  have h1 := Draining_run task items _ evs h0 hev
  have hperm := Draining_closed task items _ h1 hcl
  refine ⟨?_, hperm, h1.crashed, ?_⟩
  · rw [hperm.length_eq, List.length_map]
  · intro hret r hr
    have hm := hperm.mem_iff.mp hr
    obtain ⟨x, _, hx⟩ := List.mem_map.mp hm
    obtain ⟨v, hv⟩ := hret x
    rw [hv] at hx
    rw [← hx]
    rfl

theorem results_complete_witness :
    (((New 5 [0, 1, 2] true doubleTask false).Run 1).run
        [Event.loop 0 LoopCase.input, Event.loop 3 LoopCase.input, Event.exec 3 SendCase.send,
          Event.loop 1 LoopCase.input, Event.exec 0 SendCase.send, Event.exec 1 SendCase.send,
          Event.loop 0 LoopCase.input, Event.loop 1 LoopCase.input, Event.loop 2 LoopCase.input,
          Event.loop 3 LoopCase.input, Event.loop 4 LoopCase.input,
          Event.supervisorClose]).sent
        = [⟨2, none⟩, ⟨0, none⟩, ⟨4, none⟩] ∧
      (((New 5 [0, 1, 2] true doubleTask false).Run 1).run
        [Event.loop 0 LoopCase.input, Event.loop 3 LoopCase.input, Event.exec 3 SendCase.send,
          Event.loop 1 LoopCase.input, Event.exec 0 SendCase.send, Event.exec 1 SendCase.send,
          Event.loop 0 LoopCase.input, Event.loop 1 LoopCase.input, Event.loop 2 LoopCase.input,
          Event.loop 3 LoopCase.input, Event.loop 4 LoopCase.input,
          Event.supervisorClose]).sent.length = [0, 1, 2].length :=
  ⟨by decide,
    ((results_complete 5 [0, 1, 2] doubleTask false 1 (by decide) (by decide)).2
      [Event.loop 0 LoopCase.input, Event.loop 3 LoopCase.input, Event.exec 3 SendCase.send,
        Event.loop 1 LoopCase.input, Event.exec 0 SendCase.send, Event.exec 1 SendCase.send,
        Event.loop 0 LoopCase.input, Event.loop 1 LoopCase.input, Event.loop 2 LoopCase.input,
        Event.loop 3 LoopCase.input, Event.loop 4 LoopCase.input, Event.supervisorClose]
      (by decide) (by decide)).1⟩

end Workerpool
